import Mathlib

/-!
Verification of the core protocol-transport and session-lifecycle code of
mcp-browsy (`src/mcp_browsy/cdp.py` and `src/mcp_browsy/browser.py`).

The Python code is shallowly embedded: JSON values become an inductive `JVal`,
the `CDPClient` object becomes an explicit `ClientState` record, each method
becomes a state-transformer, and Python runtime errors raised while handling a
message become an `Except PyErr` result.  Asynchronous interleavings are
modelled by making the message traffic an explicit list that is folded through
the receive-loop handler.
-/

namespace Browsy

/-- A JSON value, as produced by `json.loads`. -/
inductive JVal where
  | null
  | bool (b : Bool)
  | num (n : Int)
  | str (s : String)
  | arr (elems : List JVal)
  | obj (fields : List (String × JVal))
deriving Repr

/-- Python runtime errors that the message-handling code can raise. -/
inductive PyErr where
  | typeError
  | attributeError
  | keyError
deriving Repr, DecidableEq

/-- An inbound frame from the websocket: either a blob that `json.loads`
rejects, or a parsed JSON value. -/
inductive Msg where
  | notJson
  | json (v : JVal)
deriving Repr

/-- Character-list test `needle` begins `hay` (helper for Python `in` on str). -/
def listHasPre : List Char → List Char → Bool
  | [], _ => true
  | _ :: _, [] => false
  | a :: as, b :: bs => a == b && listHasPre as bs

/-- Character-list substring test (helper for Python `in` on str). -/
def listHasSub (needle : List Char) : List Char → Bool
  | [] => needle.isEmpty
  | b :: bs => listHasPre needle (b :: bs) || listHasSub needle bs

/-- Python `needle in hay` for strings (substring test). -/
def pyStrContains (needle hay : String) : Bool :=
  listHasSub needle.toList hay.toList

/-- Python `key in data`: key membership for dicts, element membership for
lists, substring for strings, `TypeError` otherwise. -/
def pyContains (key : String) : JVal → Except PyErr Bool
  | .obj fields => .ok (fields.any (fun kv => kv.1 == key))
  | .arr xs => .ok (xs.any (fun x => match x with | .str s => s == key | _ => false))
  | .str s => .ok (pyStrContains key s)
  | _ => .error .typeError

/-- Python `data[key]` with a string key: dict lookup (`KeyError` when
missing), `TypeError` on every other type. -/
def pyIndex (data : JVal) (key : String) : Except PyErr JVal :=
  match data with
  | .obj fields =>
    match fields.find? (fun kv => kv.1 == key) with
    | some kv => .ok kv.2
    | none => .error .keyError
  | _ => .error .typeError

/-- Python `data.get(key, default)`: only dicts have `.get`; every other type
raises `AttributeError`. -/
def pyGetField (data : JVal) (key : String) (default : JVal) : Except PyErr JVal :=
  match data with
  | .obj fields =>
    match fields.find? (fun kv => kv.1 == key) with
    | some kv => .ok kv.2
    | none => .ok default
  | _ => .error .attributeError

/-- Whether a Python value can be a dict-membership probe (lists and dicts are
unhashable and raise `TypeError`). -/
def pyHashable : JVal → Bool
  | .arr _ => false
  | .obj _ => false
  | _ => true

/-- The integer key a JSON value denotes when probing an int-keyed dict
(Python `bool` is an `int` subclass, so `true` probes key 1). -/
def pyIntKey : JVal → Option Int
  | .num i => some i
  | .bool b => some (if b then 1 else 0)
  | _ => none

namespace CDPClient

/-- The resolution state of one `asyncio.Future` created by `send`. -/
inductive FutureVal where
  | pending
  | result (payload : JVal)
  | exc (code : JVal) (message : JVal)
  | cancelled
deriving Repr

/-- The mutable state of a `CDPClient` instance.

`pending` is the key set of the `_callbacks` dict; `futures` records the
resolution state of every future ever created by `send` (keyed by message id,
which `send` allocates freshly); `fired` logs each handler task spawned by the
event-dispatch loop as a (handler id, params) pair; `wire` logs the JSON
frames written to the websocket. -/
structure ClientState where
  connected : Bool
  ws : Option Bool
  wsUrl : Option String
  listenTask : Bool
  idCounter : Int
  pending : List Int
  futures : List (Int × FutureVal)
  eventHandlers : List (String × List Nat)
  fired : List (Nat × JVal)
  wire : List JVal
deriving Repr

/-- A freshly constructed `CDPClient` (its `__init__`). -/
def init : ClientState :=
  { connected := false, ws := none, wsUrl := none, listenTask := false,
    idCounter := 0, pending := [], futures := [], eventHandlers := [],
    fired := [], wire := [] }

/-- The `connected` property: `_connected and ws is not None and not ws.closed`. -/
def clientConnected (s : ClientState) : Bool :=
  s.connected && (match s.ws with | some isOpen => isOpen | none => false)

/-- Resolution state of the future with message id `i` (dict lookup). -/
def lookupFut : List (Int × FutureVal) → Int → Option FutureVal
  | [], _ => none
  | p :: rest, i => if p.1 == i then some p.2 else lookupFut rest i

/-- Resolution state of the future that `send` created for id `i`. -/
def futureOf (s : ClientState) (i : Int) : Option FutureVal :=
  lookupFut s.futures i

/-- Overwrite the resolution state of the future keyed `i`. -/
def updFut : List (Int × FutureVal) → Int → FutureVal → List (Int × FutureVal)
  | [], _, _ => []
  | p :: rest, i, v => (if p.1 == i then (p.1, v) else p) :: updFut rest i v

/-- Lines 104-111 of `cdp.py`: pop the matching callback, then resolve its
future from the message: `set_exception(CDPError(...))` when the message has
an `error` field, else `set_result(data.get("result", {}))`. -/
def resolveFuture (data : JVal) (i : Int) (s : ClientState) :
    Except PyErr ClientState :=
  let s1 := { s with pending := s.pending.filter (fun j => !(j == i)) }
  match pyContains "error" data with
  | .error e => .error e
  | .ok hasErr =>
    if hasErr then
      match pyIndex data "error" with
      | .error e => .error e
      | .ok errObj =>
        match pyGetField errObj "code" (.num (-1)) with
        | .error e => .error e
        | .ok code =>
          match pyGetField errObj "message" (.str "Unknown error") with
          | .error e => .error e
          | .ok msgv => .ok { s1 with futures := updFut s1.futures i (.exc code msgv) }
    else
      match pyGetField data "result" (.obj []) with
      | .error e => .error e
      | .ok res => .ok { s1 with futures := updFut s1.futures i (.result res) }

/-- Lines 100-111 of `cdp.py`: the command-response branch of
`_handle_message`. -/
def handleIdBranch (data : JVal) (s : ClientState) : Except PyErr ClientState :=
  match pyIndex data "id" with
  | .error e => .error e
  | .ok msgId =>
    if pyHashable msgId then
      match pyIntKey msgId with
      | some i => if i ∈ s.pending then resolveFuture data i s else .ok s
      | none => .ok s
    else .error .typeError

/-- Lines 113-123 of `cdp.py`: the event branch of `_handle_message`; each
registered handler for the method is spawned as an independent task, logged
in `fired`. -/
def handleEventBranch (data : JVal) (s : ClientState) : Except PyErr ClientState :=
  match pyIndex data "method" with
  | .error e => .error e
  | .ok mth =>
    match pyGetField data "params" (.obj []) with
    | .error e => .error e
    | .ok params =>
      if pyHashable mth then
        match mth with
        | .str name =>
          match s.eventHandlers.find? (fun kv => kv.1 == name) with
          | some kv => .ok { s with fired := s.fired ++ kv.2.map (fun h => (h, params)) }
          | none => .ok s
        | _ => .ok s
      else .error .typeError

/-- `_handle_message`: a parse failure is logged and discarded; otherwise the
response branch runs when the message has an `id`, then the event branch when
it has a `method`.  A Python error raised anywhere propagates. -/
def handle_message (m : Msg) (s : ClientState) : Except PyErr ClientState :=
  match m with
  | .notJson => .ok s
  | .json data =>
    match pyContains "id" data with
    | .error e => .error e
    | .ok hasId =>
      match (if hasId then handleIdBranch data s else .ok s) with
      | .error e => .error e
      | .ok s1 =>
        match pyContains "method" data with
        | .error e => .error e
        | .ok hasMethod =>
          if hasMethod then handleEventBranch data s1 else .ok s1

/-- How `_listen_loop` terminates. -/
inductive LoopExit where
  | connClosed
  | crashed
deriving Repr, DecidableEq

/-- `_listen_loop`: fold `_handle_message` over the inbound frames; the
stream ending raises `ConnectionClosed` (caught: mark disconnected); a Python
error from the handler is caught by the generic `except` (mark disconnected)
and the loop exits without processing later frames. -/
def listen_loop (s : ClientState) : List Msg → ClientState × LoopExit
  | [] => ({ s with connected := false }, .connClosed)
  | m :: rest =>
    match handle_message m s with
    | .ok s1 => listen_loop s1 rest
    | .error _ => ({ s with connected := false }, .crashed)

/-- Fold `_handle_message` over a window of inbound frames (the traffic
processed while a caller is suspended); a handler error kills the loop. -/
def processMsgs (s : ClientState) : List Msg → ClientState
  | [] => s
  | m :: rest =>
    match handle_message m s with
    | .ok s1 => processMsgs s1 rest
    | .error _ => { s with connected := false }

/-- Lines 85-90 of `cdp.py`: the `except ConnectionClosed` / generic handler
at the end of `_listen_loop` — it only clears `_connected`. -/
def on_connection_lost (s : ClientState) : ClientState :=
  { s with connected := false }

/-- Error raised by the synchronous prefix of `send`
(`RuntimeError("CDP client not connected")`). -/
inductive SendErr where
  | notConnected
deriving Repr, DecidableEq

/-- A well-formed command frame as `send` writes it. -/
def commandMsg (i : Int) (method : String) (params : JVal) : JVal :=
  .obj [("id", .num i), ("method", .str method), ("params", params)]

/-- Lines 147-163 of `cdp.py`: the synchronous prefix of `send` — guard on
`connected`, allocate the next id, register the pending future, write the
frame.  Returns the updated state and the allocated id. -/
def send_start (s : ClientState) (method : String) (params : JVal) :
    Except SendErr (ClientState × Int) :=
  if clientConnected s then
    let i := s.idCounter + 1
    .ok ({ s with idCounter := i,
                  pending := i :: s.pending,
                  futures := (i, FutureVal.pending) :: s.futures,
                  wire := s.wire ++ [commandMsg i method params] }, i)
  else .error .notConnected

/-- Lines 165-167 of `cdp.py`: the `except asyncio.TimeoutError` branch of
`send` — `self._callbacks.pop(msg_id, None)`. -/
def send_on_timeout (s : ClientState) (i : Int) : ClientState :=
  { s with pending := s.pending.filter (fun j => !(j == i)) }

/-- The possible outcomes of one `send` call. -/
inductive SendOutcome where
  | success (payload : JVal)
  | protoErr (code message : JVal)
  | timedOut
  | cancelledOutcome
deriving Repr

/-- Line 164-167 of `cdp.py`: `await asyncio.wait_for(future, timeout)` at the
moment the timeout budget expires — a resolved future yields its value (or
raises its exception/cancellation); a still-pending future raises
`asyncio.TimeoutError` after popping the callback. -/
def send_finish (s : ClientState) (i : Int) : ClientState × SendOutcome :=
  match futureOf s i with
  | some (.result v) => (s, .success v)
  | some (.exc c m) => (s, .protoErr c m)
  | some .cancelled => (s, .cancelledOutcome)
  | _ => (send_on_timeout s i, .timedOut)

/-- `on(event, handler)`: append the handler to the event's list, creating
the list when absent. -/
def addHandler : List (String × List Nat) → String → Nat → List (String × List Nat)
  | [], e, h => [(e, [h])]
  | kv :: rest, e, h =>
    if kv.1 == e then (kv.1, kv.2 ++ [h]) :: rest
    else kv :: addHandler rest e h

/-- `CDPClient.on`. -/
def onEvent (s : ClientState) (event : String) (h : Nat) : ClientState :=
  { s with eventHandlers := addHandler s.eventHandlers event h }

/-- `CDPClient.off`: with no handler, delete the event's entry; with a
handler, filter it out of the event's list.  A no-op when the event has no
entry. -/
def offEvent (s : ClientState) (event : String) (h : Option Nat) : ClientState :=
  if (s.eventHandlers.find? (fun kv => kv.1 == event)).isSome then
    match h with
    | none => { s with eventHandlers := s.eventHandlers.filter (fun kv => !(kv.1 == event)) }
    | some hh =>
      { s with eventHandlers :=
          s.eventHandlers.map (fun kv =>
            if kv.1 == event then (kv.1, kv.2.filter (fun x => !(x == hh))) else kv) }
  else s

/-- Lines 246-250 of `cdp.py`: cancel every not-yet-done future still in the
callbacks dict. -/
def cancelPending (pend : List Int) : List (Int × FutureVal) → List (Int × FutureVal)
  | [] => []
  | (i, v) :: rest =>
    (i, if i ∈ pend then (match v with | .pending => .cancelled | w => w) else v)
      :: cancelPending pend rest

/-- `CDPClient.close`: clear `_connected`, cancel the listen task, close and
drop the websocket, cancel every pending future, clear the callbacks dict.
Event handlers are not touched. -/
def close (s : ClientState) : ClientState :=
  { s with connected := false, listenTask := false, ws := none,
           futures := cancelPending s.pending s.futures, pending := [] }

/-- Error raised by `connect` when the transport handshake fails. -/
inductive ConnErr where
  | transportFailed
deriving Repr, DecidableEq

/-- `CDPClient.connect`: fully close any live connection first, then either
establish the websocket and start the listen loop, or re-raise the transport
failure. -/
def connect (s : ClientState) (wsUrl : String) (transportOk : Bool) :
    ClientState × Except ConnErr Unit :=
  let s0 := if clientConnected s then close s else s
  let s1 := { s0 with wsUrl := some wsUrl }
  if transportOk then
    ({ s1 with ws := some true, connected := true, listenTask := true }, .ok ())
  else (s1, .error .transportFailed)

/-- A well-formed response frame `{"id": i, "result": payload}`. -/
def respMsg (i : Int) (payload : JVal) : JVal :=
  .obj [("id", .num i), ("result", payload)]

/-- A well-formed event frame `{"method": name, "params": params}`. -/
def eventMsg (name : String) (params : JVal) : JVal :=
  .obj [("method", .str name), ("params", params)]

/-- Deliver a batch of response frames through the receive loop, in the given
arrival order. -/
def deliverResponses (s : ClientState) : List (Int × JVal) → ClientState
  | [] => s
  | r :: rest =>
    match handle_message (Msg.json (respMsg r.1 r.2)) s with
    | .ok s1 => deliverResponses s1 rest
    | .error _ => { s with connected := false }

/-- Deliver a batch of event frames through the receive loop, in the given
arrival order. -/
def dispatchEvents (s : ClientState) : List (String × JVal) → ClientState
  | [] => s
  | e :: rest =>
    match handle_message (Msg.json (eventMsg e.1 e.2)) s with
    | .ok s1 => dispatchEvents s1 rest
    | .error _ => { s with connected := false }

/-- Handlers currently registered for event name `n` in a handler table. -/
def handlersOfL (ehs : List (String × List Nat)) (n : String) : List Nat :=
  match ehs.find? (fun kv => kv.1 == n) with
  | some kv => kv.2
  | none => []

/-- Handlers currently registered for event name `n`. -/
def handlersOf (s : ClientState) (n : String) : List Nat :=
  handlersOfL s.eventHandlers n

/-- The handler tasks that dispatching a batch of events spawns, given a fixed
handler table. -/
def firedFor (ehs : List (String × List Nat)) : List (String × JVal) → List (Nat × JVal)
  | [] => []
  | e :: rest => (handlersOfL ehs e.1).map (fun h => (h, e.2)) ++ firedFor ehs rest

/-- The effective predicate of `wait_for_event`
(`predicate is None or predicate(params)`). -/
def predOf (pred : Option (JVal → Bool)) : JVal → Bool :=
  fun v => match pred with | none => true | some f => f v

/-- One run of the temporary handler body of `wait_for_event`: set the future
to the event's params when the predicate accepts them and the future is not
yet done. -/
def wfeStep (pred : JVal → Bool) (fut : Option JVal) (params : JVal) : Option JVal :=
  match fut with
  | some v => some v
  | none => if pred params then some params else none

/-- Execute the logged handler tasks belonging to the temporary handler `hid`,
in spawn order, accumulating the wait future. -/
def runFired (pred : JVal → Bool) (hid : Nat) :
    List (Nat × JVal) → Option JVal → Option JVal
  | [], fut => fut
  | t :: rest, fut =>
    runFired pred hid rest (if t.1 == hid then wfeStep pred fut t.2 else fut)

/-- `CDPClient.wait_for_event`: register the temporary handler `hid`, let the
receive loop dispatch the events arriving during the wait window, read off
the wait future, and in the `finally` block unsubscribe the handler.  A still
unset future means `asyncio.wait_for` raised `TimeoutError`. -/
def wait_for_event (s : ClientState) (event : String) (pred : Option (JVal → Bool))
    (hid : Nat) (events : List (String × JVal)) : ClientState × Except Unit JVal :=
  let s1 := onEvent s event hid
  let s2 := dispatchEvents s1 events
  let fut := runFired (predOf pred) hid s2.fired none
  let s3 := offEvent s2 event (some hid)
  (s3, match fut with
       | some v => .ok v
       | none => .error ())

/-- One externally triggered step of a `CDPClient`'s lifetime, used to state
whole-lifetime invariants. -/
inductive COp where
  | connectOp (wsUrl : String) (transportOk : Bool)
  | closeOp
  | sendOp (method : String) (params : JVal)
  | recvOp (m : Msg)
  | onOp (event : String) (h : Nat)
  | offOp (event : String) (h : Option Nat)
  | timeoutOp (i : Int)
  | connLostOp

/-- Apply one lifetime step; a `sendOp` additionally reports the id it
allocated. -/
def stepOp (s : ClientState) : COp → ClientState × Option Int
  | .connectOp u ok => ((connect s u ok).1, none)
  | .closeOp => (close s, none)
  | .sendOp method params =>
    match send_start s method params with
    | .ok (s1, i) => (s1, some i)
    | .error _ => (s, none)
  | .recvOp m =>
    match handle_message m s with
    | .ok s1 => (s1, none)
    | .error _ => ({ s with connected := false }, none)
  | .onOp e h => (onEvent s e h, none)
  | .offOp e h => (offEvent s e h, none)
  | .timeoutOp i => (send_on_timeout s i, none)
  | .connLostOp => (on_connection_lost s, none)

/-- The command ids allocated along a lifetime, in allocation order. -/
def allocIds (s : ClientState) : List COp → List Int
  | [] => []
  | op :: rest =>
    match stepOp s op with
    | (s1, some i) => i :: allocIds s1 rest
    | (s1, none) => allocIds s1 rest

end CDPClient

namespace Browser

/-- The state of a `Browser` wrapper: its memoized enabled-domain set plus the
log of CDP methods sent over its client. -/
structure BState where
  enabledDomains : List String
  cdpWire : List String
deriving Repr

/-- `Browser.enable_domain`: issue `{domain}.enable` only when the domain is
not yet recorded, then record it. -/
def enable_domain (b : BState) (domain : String) : BState :=
  if domain ∈ b.enabledDomains then b
  else { b with cdpWire := b.cdpWire ++ [domain ++ ".enable"],
                enabledDomains := b.enabledDomains ++ [domain] }

/-- The event name `Browser.navigate` waits for, per its wait condition. -/
def navEventName (waitUntil : String) : String :=
  if waitUntil == "load" then "Page.loadEventFired"
  else if waitUntil == "domcontentloaded" then "Page.domContentEventFired"
  else "Page.loadEventFired"

/-- The operations of a `Browser` wrapper, for stating whole-lifetime
invariants of its domain set. -/
inductive BOp where
  | enableOp (domain : String)
  | navigateOp (url : String) (waitUntil : String)
  | getUrlOp
  | getTitleOp
  | closeBOp

/-- Apply one `Browser` operation (the wait inside `navigate` does not touch
the domain set, so only the sends are tracked). -/
def applyBOp (b : BState) : BOp → BState
  | .enableOp d => enable_domain b d
  | .navigateOp _ _ =>
    let b1 := enable_domain b "Page"
    { b1 with cdpWire := b1.cdpWire ++ ["Page.navigate"] }
  | .getUrlOp =>
    let b1 := enable_domain b "Runtime"
    { b1 with cdpWire := b1.cdpWire ++ ["Runtime.evaluate"] }
  | .getTitleOp =>
    let b1 := enable_domain b "Runtime"
    { b1 with cdpWire := b1.cdpWire ++ ["Runtime.evaluate"] }
  | .closeBOp => b

/-- Apply a sequence of `Browser` operations. -/
def applyBOps (b : BState) : List BOp → BState
  | [] => b
  | op :: rest => applyBOps (applyBOp b op) rest

/-- Number of enable commands for `d` in a wire log. -/
def countEnable (b : BState) (d : String) : Nat :=
  b.cdpWire.count (d ++ ".enable")

/-- A freshly attached `Browser` with no domain enabled yet. -/
def exBrowser : BState := { enabledDomains := [], cdpWire := [] }

end Browser

namespace BrowserManager

/-- The environment a `BrowserManager.launch` call runs against: results of
the external probes and of process spawning.  `pollTry k` is the result of
the k-th `_try_connect` during the wait loop, and `pollBudget` is how many
0.5s poll iterations fit in the overall `timeout`. -/
structure LaunchEnv where
  alreadyConnected : Bool
  tryFirst : Bool
  chromePath : Option String
  profileDir : Option String
  profileLocked : Bool
  tempProfile : String
  popenOk : Bool
  pollTry : Nat → Bool
  pollBudget : Nat

/-- The process-ownership state of a `BrowserManager`: whether a spawned
process is currently running, and the argv it was spawned with. -/
structure MgrState where
  procRunning : Bool
  spawnedArgs : Option (List String)
deriving Repr, DecidableEq

/-- `BrowserError` cases that `launch` can raise. -/
inductive LaunchErr where
  | chromeNotFound
  | spawnFailed
  | connectTimeout
deriving Repr, DecidableEq

/-- The ways `launch` can succeed. -/
inductive LaunchOk where
  | reusedExisting
  | attachedExisting
  | launchedNew
deriving Repr, DecidableEq

/-- The fixed startup flags of a spawned browser. -/
def baseArgs (chromePath : String) (port : Nat) : List String :=
  [chromePath,
   "--remote-debugging-port=" ++ toString port,
   "--no-first-run",
   "--no-default-browser-check",
   "--disable-background-networking",
   "--disable-default-apps",
   "--disable-extensions",
   "--disable-sync",
   "--disable-translate",
   "--metrics-recording-only",
   "--mute-audio",
   "--safebrowsing-disable-auto-update"]

/-- The profile flag of a spawned browser: the default profile when usable, a
temporary profile when it is locked, absent, or not requested. -/
def profileArgs (env : LaunchEnv) (useProfile : Bool) : List String :=
  if useProfile then
    match env.profileDir with
    | some dir =>
      if env.profileLocked then ["--user-data-dir=" ++ env.tempProfile]
      else ["--user-data-dir=" ++ dir]
    | none => ["--user-data-dir=" ++ env.tempProfile]
  else ["--user-data-dir=" ++ env.tempProfile]

/-- The wait loop of `launch`: keep calling `_try_connect` until one succeeds
or the poll budget is exhausted. -/
def pollLoop (tryAt : Nat → Bool) : Nat → Nat → Bool
  | _, 0 => false
  | i, b + 1 => if tryAt i then true else pollLoop tryAt (i + 1) b

/-- `BrowserManager.launch`: reuse a live browser, else attach to an existing
one, else spawn a process and poll until attached; on poll timeout terminate
the spawned process and raise.  Returns the final process-ownership state and
the outcome. -/
def launch (env : LaunchEnv) (headless useProfile : Bool) (m : MgrState) :
    MgrState × Except LaunchErr LaunchOk :=
  if env.alreadyConnected then (m, .ok .reusedExisting)
  else if env.tryFirst then (m, .ok .attachedExisting)
  else
    match env.chromePath with
    | none => (m, .error .chromeNotFound)
    | some path =>
      let args := baseArgs path 9222
        ++ (if headless then ["--headless=new", "--disable-gpu"] else [])
        ++ profileArgs env useProfile
      if env.popenOk then
        let m1 : MgrState := { procRunning := true, spawnedArgs := some args }
        if pollLoop env.pollTry 0 env.pollBudget then (m1, .ok .launchedNew)
        else ({ m1 with procRunning := false }, .error .connectTimeout)
      else (m, .error .spawnFailed)

/-- An environment in which no browser ever becomes reachable: the first
connect attempt fails and every poll fails. -/
def exEnv : LaunchEnv :=
  { alreadyConnected := false, tryFirst := false,
    chromePath := some "/usr/bin/google-chrome",
    profileDir := some "/home/u/.config/google-chrome", profileLocked := false,
    tempProfile := "/tmp/profile", popenOk := true,
    pollTry := fun _ => false, pollBudget := 3 }

/-- A fresh manager that has spawned nothing yet. -/
def exMgr : MgrState := { procRunning := false, spawnedArgs := none }

end BrowserManager

namespace CDPClient

/-- A connected client with two commands in flight and one event handler
registered, used to evaluate the theorems on concrete inputs. -/
def exClient : ClientState :=
  { init with
    connected := true
    ws := some true
    listenTask := true
    idCounter := 2
    pending := [1, 2]
    futures := [(1, FutureVal.pending), (2, FutureVal.pending)]
    eventHandlers := [("Page.loadEventFired", [7])] }

/-- The params of the events in a stream carrying a given event name, in
arrival order. -/
def matchParams (event : String) (evs : List (String × JVal)) : List JVal :=
  (evs.filter (fun e => e.1 == event)).map Prod.snd

/-- A sample `wait_for_event` predicate: accept exactly the params `2`. -/
def isTwo : JVal → Bool
  | .num n => n == 2
  | _ => false

/-- The state of `exClient` right after the synchronous prefix of a
`send("Foo.bar", {})` call, which allocates id 3. -/
def exAfterStart : ClientState :=
  { exClient with
    idCounter := 3
    pending := 3 :: exClient.pending
    futures := (3, FutureVal.pending) :: exClient.futures
    wire := exClient.wire ++ [commandMsg 3 "Foo.bar" (JVal.obj [])] }

end CDPClient

namespace CDPClient

/-! Lemmas about the receive loop's handling of well-formed response frames. -/

theorem handle_respMsg (i : Int) (p : JVal) (s : ClientState) :
    handle_message (Msg.json (respMsg i p)) s =
      .ok (if i ∈ s.pending then
             { s with pending := s.pending.filter (fun j => !(j == i)),
                      futures := updFut s.futures i (.result p) }
           else s) := by
  by_cases h : i ∈ s.pending
  · simp [handle_message, respMsg, pyContains, handleIdBranch, pyIndex, pyHashable,
          pyIntKey, resolveFuture, pyGetField, h]
  · simp [handle_message, respMsg, pyContains, handleIdBranch, pyIndex, pyHashable,
          pyIntKey, h]

theorem lookupFut_updFut_self (fs : List (Int × FutureVal)) (i : Int) (v : FutureVal)
    (h : (lookupFut fs i).isSome) : lookupFut (updFut fs i v) i = some v := by
  induction fs with
  | nil => simp [lookupFut] at h
  | cons a fs ih =>
    by_cases ha : (a.1 == i) = true
    · simp [lookupFut, updFut, ha]
    · simp only [lookupFut, updFut, ha, Bool.false_eq_true, if_false] at h ⊢
      exact ih h

theorem lookupFut_updFut_ne (fs : List (Int × FutureVal)) (i j : Int) (v : FutureVal)
    (h : i ≠ j) : lookupFut (updFut fs j v) i = lookupFut fs i := by
  induction fs with
  | nil => simp [lookupFut, updFut]
  | cons a fs ih =>
    by_cases ha : (a.1 == j) = true
    · have ha1 : a.1 = j := beq_iff_eq.mp ha
      have hai : (a.1 == i) = false := by
        rw [ha1]; exact beq_eq_false_iff_ne.mpr (fun hh => h hh.symm)
      simp only [lookupFut, updFut, ha, if_true, hai, Bool.false_eq_true, if_false]
      exact ih
    · simp only [updFut, ha, Bool.false_eq_true, if_false]
      by_cases hai : (a.1 == i) = true
      · simp [lookupFut, hai]
      · simp only [lookupFut, hai, Bool.false_eq_true, if_false]
        exact ih

theorem not_mem_filter_self (l : List Int) (i : Int) :
    i ∉ l.filter (fun j => !(j == i)) := by
  intro h
  simp [List.mem_filter] at h

theorem mem_filter_of_ne (l : List Int) (i j : Int) (h : i ≠ j) :
    (i ∈ l.filter (fun k => !(k == j))) ↔ i ∈ l := by
  simp [List.mem_filter, h]

theorem deliver_preserves_resolved (i : Int) :
    ∀ (rs : List (Int × JVal)) (s : ClientState), i ∉ s.pending →
      futureOf (deliverResponses s rs) i = futureOf s i ∧
        i ∉ (deliverResponses s rs).pending := by
  intro rs
  induction rs with
  | nil => intro s h; exact ⟨rfl, h⟩
  | cons r rest ih =>
    intro s h
    rw [deliverResponses, handle_respMsg]
    by_cases hr : r.1 ∈ s.pending
    · have hne : i ≠ r.1 := fun he => h (he ▸ hr)
      simp only [hr, if_pos]
      have h2 : i ∉ (s.pending.filter (fun j => !(j == r.1))) := by
        intro hmem
        exact h ((mem_filter_of_ne s.pending i r.1 hne).mp hmem)
      have := ih { s with pending := s.pending.filter (fun j => !(j == r.1)),
                          futures := updFut s.futures r.1 (.result r.2) } h2
      refine ⟨?_, this.2⟩
      rw [this.1]
      exact lookupFut_updFut_ne s.futures i r.1 (.result r.2) hne
    · simp only [hr, if_neg, if_false]
      exact ih s h

theorem deliver_unmatched_id (s : ClientState) (j : Int) (q : JVal)
    (h : j ∉ s.pending) : deliverResponses s [(j, q)] = s := by
  rw [deliverResponses, handle_respMsg]
  simp only [h, if_neg, if_false]
  rfl

theorem deliver_correlates (i : Int) (p : JVal) :
    ∀ (rs : List (Int × JVal)) (s : ClientState),
      (rs.map Prod.fst).Nodup →
      (i, p) ∈ rs →
      i ∈ s.pending →
      futureOf s i = some FutureVal.pending →
      futureOf (deliverResponses s rs) i = some (FutureVal.result p) ∧
        i ∉ (deliverResponses s rs).pending := by
  intro rs
  induction rs with
  | nil => intro s _ hmem; exact absurd hmem (List.not_mem_nil _)
  | cons r rest ih =>
    intro s hnd hmem hpend hfut
    rw [deliverResponses, handle_respMsg]
    rcases List.mem_cons.mp hmem with heq | htail
    · subst heq
      simp only [hpend, if_pos]
      set s1 : ClientState :=
        { s with pending := s.pending.filter (fun j => !(j == i)),
                 futures := updFut s.futures i (.result p) } with hs1
      have hnp : i ∉ s1.pending := not_mem_filter_self s.pending i
      have hres : futureOf s1 i = some (.result p) := by
        simp only [hs1, futureOf]
        exact lookupFut_updFut_self s.futures i (.result p) (by rw [← futureOf, hfut]; rfl)
      have hpres := deliver_preserves_resolved i rest s1 hnp
      exact ⟨hpres.1.trans hres, hpres.2⟩
    · have hne : i ≠ r.1 := by
        intro he
        have : i ∈ rest.map Prod.fst := List.mem_map.mpr ⟨(i, p), htail, rfl⟩
        rw [List.map_cons] at hnd
        exact (List.nodup_cons.mp hnd).1 (he ▸ this)
      by_cases hr : r.1 ∈ s.pending
      · simp only [hr, if_pos]
        refine ih _ ?_ htail ?_ ?_
        · rw [List.map_cons] at hnd; exact (List.nodup_cons.mp hnd).2
        · exact (mem_filter_of_ne s.pending i r.1 hne).mpr hpend
        · show lookupFut (updFut s.futures r.1 (.result r.2)) i = some FutureVal.pending
          rw [lookupFut_updFut_ne s.futures i r.1 (.result r.2) hne]
          exact hfut
      · simp only [hr, if_neg, if_false]
        refine ih s ?_ htail hpend hfut
        rw [List.map_cons] at hnd; exact (List.nodup_cons.mp hnd).2

/-- Claim C1: for any set of concurrent `send` calls outstanding on one
connection, each call's future resolves with exactly the `result` payload of
the response carrying its own id, irrespective of the order in which the
responses arrive; and a response whose id matches no pending command leaves
the client state completely unchanged. -/
theorem send_response_correlation :
    (∀ (s : ClientState) (rs : List (Int × JVal)) (i : Int) (p : JVal),
        (rs.map Prod.fst).Nodup →
        (i, p) ∈ rs →
        i ∈ s.pending →
        futureOf s i = some FutureVal.pending →
        futureOf (deliverResponses s rs) i = some (FutureVal.result p) ∧
          i ∉ (deliverResponses s rs).pending) ∧
    (∀ (s : ClientState) (j : Int) (q : JVal),
        j ∉ s.pending → deliverResponses s [(j, q)] = s) := by
  exact ⟨fun s rs i p hnd hmem hpend hfut => deliver_correlates i p rs s hnd hmem hpend hfut,
         fun s j q h => deliver_unmatched_id s j q h⟩

/-- Witness for C1: on a client with commands 1 and 2 in flight, delivering
the two responses in reversed order resolves command 1 with its own payload,
and a response for the unknown id 9 changes nothing. -/
theorem send_response_correlation_witness :
    futureOf (deliverResponses exClient [(2, JVal.str "b"), (1, JVal.str "a")]) 1
        = some (FutureVal.result (JVal.str "a")) ∧
      1 ∉ (deliverResponses exClient [(2, JVal.str "b"), (1, JVal.str "a")]).pending ∧
      deliverResponses exClient [(9, JVal.str "x")] = exClient := by
  have h1 := send_response_correlation.1 exClient [(2, JVal.str "b"), (1, JVal.str "a")] 1
    (JVal.str "a") (by simp) (by simp)
    (by simp [exClient, init]) (by rfl)
  have h2 := send_response_correlation.2 exClient 9 (JVal.str "x")
    (by simp [exClient, init])
  exact ⟨h1.1, h1.2, h2⟩

/-! Timeout behaviour of `send`. -/

/-- Claim C2: a `send` whose future is still unresolved when the timeout
budget expires fails with `TimeoutError`; at that moment its callback entry
is popped, so its id is no longer pending, and a reply arriving later with
that id leaves the client state completely unchanged. -/
theorem send_timeout_removes_pending
    (s s1 : ClientState) (method : String) (params : JVal) (i : Int)
    (hstart : send_start s method params = .ok (s1, i))
    (msgs : List Msg)
    (hnores : futureOf (processMsgs s1 msgs) i = some FutureVal.pending) :
    send_finish (processMsgs s1 msgs) i
        = (send_on_timeout (processMsgs s1 msgs) i, SendOutcome.timedOut) ∧
      i ∉ (send_on_timeout (processMsgs s1 msgs) i).pending ∧
      (∀ q, deliverResponses (send_on_timeout (processMsgs s1 msgs) i) [(i, q)]
          = send_on_timeout (processMsgs s1 msgs) i) := by
  refine ⟨?_, not_mem_filter_self _ i, ?_⟩
  · unfold send_finish
    rw [hnores]
  · intro q
    exact deliver_unmatched_id _ i q (not_mem_filter_self _ i)

/-- Witness for C2: `send("Foo.bar", {})` on `exClient` allocates id 3; with
no reply arriving, the call times out, id 3 is gone from the pending set, and
a late reply for id 3 is ignored. -/
theorem send_timeout_removes_pending_witness :
    send_finish (processMsgs exAfterStart []) 3
        = (send_on_timeout (processMsgs exAfterStart []) 3, SendOutcome.timedOut) ∧
      3 ∉ (send_on_timeout (processMsgs exAfterStart []) 3).pending ∧
      deliverResponses (send_on_timeout (processMsgs exAfterStart []) 3)
          [(3, JVal.str "late")]
        = send_on_timeout (processMsgs exAfterStart []) 3 := by
  have h := send_timeout_removes_pending exClient exAfterStart "Foo.bar" (JVal.obj []) 3
    rfl [] rfl
  exact ⟨h.1, h.2.1, h.2.2 (JVal.str "late")⟩

/-! Cancellation-safe teardown: `close`. -/

theorem cancelPending_nil (fs : List (Int × FutureVal)) : cancelPending [] fs = fs := by
  induction fs with
  | nil => rfl
  | cons a fs ih =>
    obtain ⟨i, v⟩ := a
    simp [cancelPending, ih]

theorem lookupFut_cancelPending (pend : List Int) (fs : List (Int × FutureVal)) (i : Int)
    (hp : i ∈ pend) (hf : lookupFut fs i = some FutureVal.pending) :
    lookupFut (cancelPending pend fs) i = some FutureVal.cancelled := by
  induction fs with
  | nil => simp [lookupFut] at hf
  | cons a fs ih =>
    obtain ⟨j, v⟩ := a
    by_cases hj : (j == i) = true
    · have hji : j = i := beq_iff_eq.mp hj
      subst hji
      simp only [lookupFut, beq_self_eq_true, if_true, Option.some.injEq] at hf
      subst hf
      simp [cancelPending, lookupFut, hp]
    · simp only [lookupFut, hj, Bool.false_eq_true, if_false] at hf
      simp only [cancelPending, lookupFut, hj, Bool.false_eq_true, if_false]
      exact ih hf

/-- Claim C3: `close` is idempotent; afterwards the callbacks dict is empty,
every command that was pending is resolved as a cancellation (a resolution
distinct from a protocol error), and any subsequent `send` fails with the
not-connected error. -/
theorem close_cancels_and_blocks_send (s : ClientState) :
    close (close s) = close s ∧
    (close s).pending = [] ∧
    (∀ i, i ∈ s.pending → futureOf s i = some FutureVal.pending →
        futureOf (close s) i = some FutureVal.cancelled) ∧
    (∀ code msg, FutureVal.cancelled ≠ FutureVal.exc code msg) ∧
    (∀ method params, send_start (close s) method params = .error SendErr.notConnected) := by
  refine ⟨?_, rfl, ?_, ?_, ?_⟩
  · show close (close s) = close s
    simp [close, cancelPending_nil]
  · intro i hp hf
    exact lookupFut_cancelPending s.pending s.futures i hp hf
  · intro code msg h
    exact FutureVal.noConfusion h
  · intro method params
    rfl

/-- Witness for C3 on `exClient`: closing twice equals closing once, command 1
ends cancelled, and a send on the closed client is rejected. -/
theorem close_cancels_and_blocks_send_witness :
    close (close exClient) = close exClient ∧
    (close exClient).pending = [] ∧
    futureOf (close exClient) 1 = some FutureVal.cancelled ∧
    send_start (close exClient) "Page.enable" JVal.null = .error SendErr.notConnected := by
  have h := close_cancels_and_blocks_send exClient
  exact ⟨h.1, h.2.1, h.2.2.1 1 (by decide) rfl, h.2.2.2.2 "Page.enable" JVal.null⟩

/-! Behaviour on unexpected connection loss. -/

/-- Counterexample to claim C4: on `exClient`, losing the connection marks
the client disconnected but cancels nothing — both in-flight commands are
still registered and their futures still pending, not cancelled. -/
theorem conn_lost_keeps_pending_cex :
    (on_connection_lost exClient).connected = false ∧
    (on_connection_lost exClient).pending = [1, 2] ∧
    futureOf (on_connection_lost exClient) 1 = some FutureVal.pending ∧
    futureOf (on_connection_lost exClient) 2 = some FutureVal.pending := by
  exact ⟨rfl, rfl, rfl, rfl⟩

/-- Claim C4 (amended): unexpected connection loss only clears the connected
flag — pending commands are left registered and unresolved (each surfaces
later through its own send timeout), and nothing else in the state changes,
in particular no reconnection is attempted. -/
theorem conn_lost_only_disconnects (s : ClientState) :
    on_connection_lost s = { s with connected := false } ∧
    clientConnected (on_connection_lost s) = false ∧
    (listen_loop s []).1 = { s with connected := false } := by
  exact ⟨rfl, rfl, rfl⟩

/-! Malformed inbound messages. -/

/-- Counterexample to claim C7: a frame that parses as the JSON scalar `5` is
not discarded — handling it raises `TypeError`, the receive loop catches it
and exits, so the well-formed response behind it is never processed and
command 1 stays pending forever. -/
theorem malformed_terminates_loop_cex :
    listen_loop exClient [Msg.json (JVal.num 5), Msg.json (respMsg 1 (JVal.str "v"))]
        = ({ exClient with connected := false }, LoopExit.crashed) ∧
    futureOf (listen_loop exClient
        [Msg.json (JVal.num 5), Msg.json (respMsg 1 (JVal.str "v"))]).1 1
        = some FutureVal.pending := by
  exact ⟨rfl, rfl⟩

/-- Claim C7 (amended): a frame that `json.loads` rejects is discarded and
the receive loop continues with the remaining messages; but a frame that
parses to a bare JSON number raises `TypeError` inside the handler, and the
loop catches it, marks the client disconnected and terminates, leaving all
later messages unprocessed. -/
theorem malformed_handling (s : ClientState) (msgs : List Msg) (n : Int) :
    listen_loop s (Msg.notJson :: msgs) = listen_loop s msgs ∧
    handle_message (Msg.json (JVal.num n)) s = .error PyErr.typeError ∧
    listen_loop s (Msg.json (JVal.num n) :: msgs)
        = ({ s with connected := false }, LoopExit.crashed) := by
  exact ⟨rfl, rfl, rfl⟩

/-! Event subscriptions across `close`. -/

/-- Counterexample to claim C9: `close` leaves the handler table of
`exClient` intact, and an event arriving on a later connection still spawns
the handler registered before the close. -/
theorem close_keeps_handlers_cex :
    (close exClient).eventHandlers = [("Page.loadEventFired", [7])] ∧
    handlersOf (close exClient) "Page.loadEventFired" = [7] ∧
    (dispatchEvents (close exClient) [("Page.loadEventFired", JVal.obj [])]).fired
        = [(7, JVal.obj [])] := by
  exact ⟨rfl, rfl, rfl⟩

/-- Claim C9 (amended): `close` clears the pending-command bookkeeping but
does not clear event subscriptions — the handler table after `close` is
exactly the handler table before it. -/
theorem close_keeps_subscriptions (s : ClientState) :
    (close s).eventHandlers = s.eventHandlers ∧ (close s).pending = [] := by
  exact ⟨rfl, rfl⟩

/-! One-shot event waiting: `wait_for_event`. -/

theorem handle_eventMsg (n : String) (p : JVal) (s : ClientState) :
    handle_message (Msg.json (eventMsg n p)) s =
      .ok { s with fired := s.fired ++ (handlersOf s n).map (fun h => (h, p)) } := by
  cases hfind : s.eventHandlers.find? (fun kv => kv.1 == n) with
  | none =>
    simp [handle_message, eventMsg, pyContains, handleEventBranch, pyIndex, pyGetField,
          pyHashable, handlersOf, handlersOfL, hfind]
  | some kv =>
    simp [handle_message, eventMsg, pyContains, handleEventBranch, pyIndex, pyGetField,
          pyHashable, handlersOf, handlersOfL, hfind]

theorem dispatchEvents_spec (evs : List (String × JVal)) :
    ∀ s : ClientState,
      dispatchEvents s evs = { s with fired := s.fired ++ firedFor s.eventHandlers evs } := by
  induction evs with
  | nil => intro s; simp [dispatchEvents, firedFor]
  | cons e rest ih =>
    intro s
    simp only [dispatchEvents, handle_eventMsg]
    rw [ih]
    simp [firedFor, handlersOf, List.append_assoc]

theorem handlersOfL_addHandler (ehs : List (String × List Nat)) (e : String) (h : Nat)
    (n : String) :
    handlersOfL (addHandler ehs e h) n =
      if n == e then handlersOfL ehs n ++ [h] else handlersOfL ehs n := by
  induction ehs with
  | nil =>
    by_cases hne : (n == e) = true
    · have hne1 : n = e := beq_iff_eq.mp hne
      subst hne1
      simp [addHandler, handlersOfL]
    · have hne1 : ¬ n = e := by simpa using hne
      have hen : (e == n) = false := beq_eq_false_iff_ne.mpr (Ne.symm hne1)
      simp [addHandler, handlersOfL, hne, hen]
  | cons kv rest ih =>
    by_cases hk : (kv.1 == e) = true
    · have hk1 : kv.1 = e := beq_iff_eq.mp hk
      by_cases hkn : (kv.1 == n) = true
      · have hkn1 : kv.1 = n := beq_iff_eq.mp hkn
        have hne : (n == e) = true := beq_iff_eq.mpr (hkn1 ▸ hk1)
        simp [addHandler, handlersOfL, hk, hkn, hne]
      · have hkn1 : ¬ kv.1 = n := by simpa using hkn
        have hne : (n == e) = false :=
          beq_eq_false_iff_ne.mpr (fun hh => hkn1 (hk1.trans hh.symm))
        simp [addHandler, handlersOfL, hk, hkn, hne]
    · have hk1 : ¬ kv.1 = e := by simpa using hk
      by_cases hkn : (kv.1 == n) = true
      · have hkn1 : kv.1 = n := beq_iff_eq.mp hkn
        have hne : (n == e) = false :=
          beq_eq_false_iff_ne.mpr (fun hh => hk1 (hkn1.trans hh))
        simp [addHandler, handlersOfL, hk, hkn, hne]
      · simp only [addHandler, hk, Bool.false_eq_true, if_false]
        simp only [handlersOfL, List.find?, hkn, Bool.false_eq_true, if_false] at ih ⊢
        simpa [handlersOfL] using ih

theorem handlersOfL_eq_nil_of_none (ehs : List (String × List Nat)) (e : String)
    (h : ehs.find? (fun kv => kv.1 == e) = none) : handlersOfL ehs e = [] := by
  simp [handlersOfL, h]

theorem handlersOfL_offMap (ehs : List (String × List Nat)) (e : String) (hh : Nat)
    (n : String) :
    handlersOfL (ehs.map (fun kv =>
        if kv.1 == e then (kv.1, kv.2.filter (fun x => !(x == hh))) else kv)) n =
      if n == e then (handlersOfL ehs n).filter (fun x => !(x == hh))
      else handlersOfL ehs n := by
  have hkey : ∀ kv : String × List Nat,
      ((if kv.1 == e then (kv.1, kv.2.filter (fun x => !(x == hh))) else kv)).1 = kv.1 := by
    intro kv
    by_cases h : (kv.1 == e) = true <;> simp [h]
  have hfind : (ehs.map (fun kv =>
        if kv.1 == e then (kv.1, kv.2.filter (fun x => !(x == hh))) else kv)).find?
          (fun kv => kv.1 == n)
      = (ehs.find? (fun kv => kv.1 == n)).map (fun kv =>
          if kv.1 == e then (kv.1, kv.2.filter (fun x => !(x == hh))) else kv) := by
    rw [List.find?_map]
    have hcomp : ((fun kv : String × List Nat => kv.1 == n) ∘ fun kv =>
        if kv.1 == e then (kv.1, kv.2.filter (fun x => !(x == hh))) else kv)
        = (fun kv : String × List Nat => kv.1 == n) := by
      funext kv
      by_cases h : (kv.1 == e) = true <;> simp [Function.comp, h]
    rw [hcomp]
  unfold handlersOfL
  rw [hfind]
  cases hfind2 : ehs.find? (fun kv => kv.1 == n) with
  | none => simp
  | some kv =>
    have hp := List.find?_some hfind2
    have hkn : kv.1 = n := by simpa using hp
    by_cases hke : (kv.1 == e) = true
    · have hne : (n == e) = true := by rw [← hkn]; exact hke
      have hke1 : kv.1 = e := beq_iff_eq.mp hke
      simp [hke, hne, hke1]
    · have hne : (n == e) = false := by rw [← hkn]; simpa using hke
      have hke1 : ¬ kv.1 = e := by simpa using hke
      simp [hke, hne, hke1]

theorem handlersOf_offEvent (s : ClientState) (e : String) (hh : Nat) (n : String) :
    handlersOf (offEvent s e (some hh)) n =
      if n == e then (handlersOf s n).filter (fun x => !(x == hh))
      else handlersOf s n := by
  unfold offEvent
  cases hfind : s.eventHandlers.find? (fun kv => kv.1 == e) with
  | none =>
    simp only [hfind, Option.isSome_none, Bool.false_eq_true, if_false]
    by_cases hne : (n == e) = true
    · have hne1 : n = e := beq_iff_eq.mp hne
      subst hne1
      simp [handlersOf, handlersOfL_eq_nil_of_none s.eventHandlers n hfind, hne]
    · simp [hne]
  | some kv =>
    simp only [hfind, Option.isSome_some, if_true]
    exact handlersOfL_offMap s.eventHandlers e hh n

theorem hid_not_in_handlersOfL (ehs : List (String × List Nat)) (hid : Nat) (n : String)
    (hfresh : ∀ kv ∈ ehs, hid ∉ kv.2) : hid ∉ handlersOfL ehs n := by
  unfold handlersOfL
  cases hfind : ehs.find? (fun kv => kv.1 == n) with
  | none => simp
  | some kv => exact hfresh kv (List.mem_of_find?_eq_some hfind)

theorem runFired_done (pred : JVal → Bool) (hid : Nat) (l : List (Nat × JVal)) (v : JVal) :
    runFired pred hid l (some v) = some v := by
  induction l with
  | nil => rfl
  | cons t rest ih => simp [runFired, wfeStep, ih]

theorem runFired_append (pred : JVal → Bool) (hid : Nat) (a b : List (Nat × JVal)) :
    ∀ fut, runFired pred hid (a ++ b) fut = runFired pred hid b (runFired pred hid a fut) := by
  induction a with
  | nil => intro fut; rfl
  | cons t rest ih => intro fut; simp [runFired, ih]

theorem runFired_skips (pred : JVal → Bool) (hid : Nat) (l : List (Nat × JVal))
    (h : ∀ t ∈ l, t.1 ≠ hid) : ∀ fut, runFired pred hid l fut = fut := by
  induction l with
  | nil => intro fut; rfl
  | cons t rest ih =>
    intro fut
    have ht : (t.1 == hid) = false :=
      beq_eq_false_iff_ne.mpr (h t (List.mem_cons_self t rest))
    simp only [runFired, ht, Bool.false_eq_true, if_false]
    exact ih (fun x hx => h x (List.mem_cons_of_mem t hx)) fut

theorem runFired_firedFor (pred : JVal → Bool) (hid : Nat) (event : String)
    (ehs : List (String × List Nat)) (hfresh : ∀ kv ∈ ehs, hid ∉ kv.2) :
    ∀ (evs : List (String × JVal)) (fut : Option JVal),
      runFired pred hid (firedFor (addHandler ehs event hid) evs) fut =
        List.foldl (wfeStep pred) fut (matchParams event evs) := by
  intro evs
  induction evs with
  | nil => intro fut; rfl
  | cons e rest ih =>
    intro fut
    rw [firedFor, runFired_append]
    rw [handlersOfL_addHandler]
    have horig : ∀ t ∈ (handlersOfL ehs e.1).map (fun h => (h, e.2)), t.1 ≠ hid := by
      intro t ht
      rcases List.mem_map.mp ht with ⟨h, hmem, rfl⟩
      exact fun hh => hid_not_in_handlersOfL ehs hid e.1 hfresh (hh ▸ hmem)
    by_cases he : (e.1 == event) = true
    · rw [if_pos he]
      rw [List.map_append, runFired_append, runFired_skips pred hid _ horig]
      have hone : ∀ fut, runFired pred hid ([hid].map (fun h => (h, e.2))) fut
          = wfeStep pred fut e.2 := by
        intro fut
        simp [runFired]
      rw [hone, ih]
      have : matchParams event (e :: rest) = e.2 :: matchParams event rest := by
        simp [matchParams, he]
      rw [this, List.foldl_cons]
    · rw [if_neg (by simp at he ⊢; exact he)]
      rw [runFired_skips pred hid _ horig, ih]
      have : matchParams event (e :: rest) = matchParams event rest := by
        simp [matchParams, he]
      rw [this]

theorem foldl_wfeStep_done (pred : JVal → Bool) (rest : List JVal) (v : JVal) :
    List.foldl (wfeStep pred) (some v) rest = some v := by
  induction rest with
  | nil => rfl
  | cons p ps ih => simp [List.foldl_cons, wfeStep, ih]

theorem foldl_wfeStep_find? (pred : JVal → Bool) (ps : List JVal) :
    List.foldl (wfeStep pred) none ps = ps.find? pred := by
  induction ps with
  | nil => rfl
  | cons p rest ih =>
    by_cases hp : pred p = true
    · simp only [List.foldl_cons, wfeStep, hp, if_true]
      rw [foldl_wfeStep_done, List.find?_cons_of_pos _ hp]
    · simp only [List.foldl_cons, wfeStep, hp, Bool.false_eq_true, if_false]
      rw [ih, List.find?_cons_of_neg _ (by simp [hp])]

theorem wfe_handlers_restored (s : ClientState) (event : String) (hid : Nat)
    (events : List (String × JVal))
    (hhandFresh : ∀ kv ∈ s.eventHandlers, hid ∉ kv.2) (n : String) :
    handlersOf (offEvent (dispatchEvents (onEvent s event hid) events) event (some hid)) n
      = handlersOf s n := by
  rw [handlersOf_offEvent]
  have hs2 : (dispatchEvents (onEvent s event hid) events).eventHandlers
      = addHandler s.eventHandlers event hid := by
    rw [dispatchEvents_spec]
    rfl
  have hhy : ∀ m, handlersOf (dispatchEvents (onEvent s event hid) events) m
      = handlersOfL (addHandler s.eventHandlers event hid) m := by
    intro m
    unfold handlersOf
    rw [hs2]
  by_cases hne : (n == event) = true
  · rw [if_pos hne, hhy n, handlersOfL_addHandler, if_pos hne, List.filter_append]
    have h1 : (handlersOfL s.eventHandlers n).filter (fun x => !(x == hid))
        = handlersOfL s.eventHandlers n := by
      apply List.filter_eq_self.mpr
      intro x hx
      have hxne : x ≠ hid :=
        fun he => hid_not_in_handlersOfL s.eventHandlers hid n hhandFresh (he ▸ hx)
      simpa using hxne
    have h2 : ([hid] : List Nat).filter (fun x => !(x == hid)) = [] := by simp
    rw [h1, h2, List.append_nil]
    rfl
  · rw [if_neg hne, hhy n, handlersOfL_addHandler, if_neg hne]
    rfl

theorem matchParams_find? (pred : JVal → Bool) (event : String)
    (evs : List (String × JVal)) :
    (matchParams event evs).find? pred =
      (evs.find? (fun e => e.1 == event && pred e.2)).map Prod.snd := by
  induction evs with
  | nil => rfl
  | cons e rest ih =>
    by_cases he : (e.1 == event) = true
    · by_cases hp : pred e.2 = true
      · have : matchParams event (e :: rest) = e.2 :: matchParams event rest := by
          simp [matchParams, he]
        rw [this, List.find?_cons_of_pos _ hp,
            List.find?_cons_of_pos _ (by simp [he, hp])]
        rfl
      · have : matchParams event (e :: rest) = e.2 :: matchParams event rest := by
          simp [matchParams, he]
        rw [this, List.find?_cons_of_neg _ (by simp [hp]),
            List.find?_cons_of_neg _ (by simp [he, hp]), ih]
    · have : matchParams event (e :: rest) = matchParams event rest := by
        simp [matchParams, he]
      rw [this, List.find?_cons_of_neg _ (by simp [he]), ih]

/-- Claim C6: `wait_for_event` completes with the params of the first event
of the requested name whose params satisfy the predicate (default predicate:
always true), skipping every earlier non-matching event of that name; it
fails with `TimeoutError` when no event in the wait window matches; and in
both cases its temporary handler is unsubscribed, leaving the handler table
as it was. -/
theorem wait_for_event_first_match
    (s : ClientState) (event : String) (pred : Option (JVal → Bool)) (hid : Nat)
    (events : List (String × JVal))
    (hfiredFresh : ∀ t ∈ s.fired, t.1 ≠ hid)
    (hhandFresh : ∀ kv ∈ s.eventHandlers, hid ∉ kv.2) :
    (wait_for_event s event pred hid events).2
        = (match events.find? (fun e => e.1 == event && predOf pred e.2) with
           | some e => Except.ok e.2
           | none => Except.error ()) ∧
    (∀ n, handlersOf (wait_for_event s event pred hid events).1 n = handlersOf s n) := by
  have hfut : runFired (predOf pred) hid
      (dispatchEvents (onEvent s event hid) events).fired none
      = (events.find? (fun e => e.1 == event && predOf pred e.2)).map Prod.snd := by
    rw [dispatchEvents_spec]
    show runFired (predOf pred) hid
        (s.fired ++ firedFor (addHandler s.eventHandlers event hid) events) none = _
    rw [runFired_append, runFired_skips (predOf pred) hid s.fired hfiredFresh,
        runFired_firedFor (predOf pred) hid event s.eventHandlers hhandFresh,
        foldl_wfeStep_find?, matchParams_find?]
  constructor
  · show (match runFired (predOf pred) hid
          (dispatchEvents (onEvent s event hid) events).fired none with
        | some v => Except.ok v
        | none => Except.error ()) = _
    rw [hfut]
    cases hc : events.find? (fun e => e.1 == event && predOf pred e.2) with
    | none => rfl
    | some e => rfl
  · intro n
    show handlersOf (offEvent (dispatchEvents (onEvent s event hid) events) event (some hid)) n
        = handlersOf s n
    exact wfe_handlers_restored s event hid events hhandFresh n

/-- Witness for C6 on `exClient`, temporary handler id 9, predicate accepting
params `2`: the wait skips the non-matching event name and the earlier
non-matching params `1`, completes with `2` (not the later `5`), and restores
the handler table. -/
theorem wait_for_event_first_match_witness :
    (wait_for_event exClient "E" (some isTwo) 9
        [("A", JVal.num 2), ("E", JVal.num 1), ("E", JVal.num 2), ("E", JVal.num 5)]).2
      = Except.ok (JVal.num 2) ∧
    handlersOf (wait_for_event exClient "E" (some isTwo) 9
        [("A", JVal.num 2), ("E", JVal.num 1), ("E", JVal.num 2), ("E", JVal.num 5)]).1
        "Page.loadEventFired" = [7] ∧
    (wait_for_event exClient "E" (some isTwo) 9 []).2 = Except.error () := by
  have h1 := wait_for_event_first_match exClient "E" (some isTwo) 9
    [("A", JVal.num 2), ("E", JVal.num 1), ("E", JVal.num 2), ("E", JVal.num 5)]
    (by intro t ht; simp [exClient, init] at ht)
    (by intro kv hkv; simp [exClient, init] at hkv; subst hkv; simp)
  have h2 := wait_for_event_first_match exClient "E" (some isTwo) 9 []
    (by intro t ht; simp [exClient, init] at ht)
    (by intro kv hkv; simp [exClient, init] at hkv; subst hkv; simp)
  refine ⟨?_, ?_, ?_⟩
  · rw [h1.1]; rfl
  · rw [h1.2 "Page.loadEventFired"]; rfl
  · rw [h2.1]
    rfl

end CDPClient

namespace Browser

/-! Domain enabling on a `Browser`. -/

theorem enable_domain_monotone (b : BState) (d e : String) (h : d ∈ b.enabledDomains) :
    d ∈ (enable_domain b e).enabledDomains := by
  unfold enable_domain
  by_cases he : e ∈ b.enabledDomains
  · simp only [he, if_pos]
    exact h
  · simp only [he, if_neg, if_false]
    exact List.mem_append_left _ h

theorem applyBOp_monotone (b : BState) (op : BOp) (d : String) (h : d ∈ b.enabledDomains) :
    d ∈ (applyBOp b op).enabledDomains := by
  cases op with
  | enableOp e => exact enable_domain_monotone b d e h
  | navigateOp u w => exact enable_domain_monotone b d "Page" h
  | getUrlOp => exact enable_domain_monotone b d "Runtime" h
  | getTitleOp => exact enable_domain_monotone b d "Runtime" h
  | closeBOp => exact h

theorem applyBOps_monotone (ops : List BOp) : ∀ (b : BState) (d : String),
    d ∈ b.enabledDomains → d ∈ (applyBOps b ops).enabledDomains := by
  induction ops with
  | nil => intro b d h; exact h
  | cons op rest ih =>
    intro b d h
    exact ih (applyBOp b op) d (applyBOp_monotone b op d h)

theorem enable_domain_idem (b : BState) (d : String) :
    enable_domain (enable_domain b d) d = enable_domain b d := by
  by_cases h : d ∈ b.enabledDomains
  · simp [enable_domain, h]
  · have hmem : d ∈ (enable_domain b d).enabledDomains := by
      simp [enable_domain, h]
    generalize hx : enable_domain b d = x at hmem ⊢
    unfold enable_domain
    rw [if_pos hmem]

/-- Claim C8: `enable_domain` is idempotent per session — a second call for
the same domain is a no-op, so two (or more) calls put at most one enable
command on the wire beyond what was already there — and the session's domain
set only ever grows: no `Browser` operation removes a domain from it. -/
theorem enable_domain_idempotent_monotone :
    (∀ b d, enable_domain (enable_domain b d) d = enable_domain b d) ∧
    (∀ b d, countEnable (enable_domain (enable_domain b d) d) d ≤ countEnable b d + 1) ∧
    (∀ b d ops, d ∈ b.enabledDomains → d ∈ (applyBOps b ops).enabledDomains) := by
  refine ⟨enable_domain_idem, ?_, fun b d ops h => applyBOps_monotone ops b d h⟩
  intro b d
  rw [enable_domain_idem]
  unfold countEnable enable_domain
  by_cases h : d ∈ b.enabledDomains
  · rw [if_pos h]
    omega
  · rw [if_neg h]
    simp [List.count_append]

/-- Witness for C8 on a fresh session: enabling `Page` twice equals enabling
it once, puts exactly one enable command on the wire, and `Page` stays in
the domain set across later operations. -/
theorem enable_domain_idempotent_monotone_witness :
    enable_domain (enable_domain exBrowser "Page") "Page" = enable_domain exBrowser "Page" ∧
    countEnable (enable_domain (enable_domain exBrowser "Page") "Page") "Page"
        ≤ countEnable exBrowser "Page" + 1 ∧
    "Page" ∈ (applyBOps (enable_domain exBrowser "Page")
        [BOp.navigateOp "https://example.org" "load", BOp.getUrlOp]).enabledDomains := by
  have h := enable_domain_idempotent_monotone
  refine ⟨h.1 exBrowser "Page", h.2.1 exBrowser "Page", ?_⟩
  refine h.2.2 (enable_domain exBrowser "Page") "Page" _ ?_
  simp [enable_domain, exBrowser]

end Browser

namespace BrowserManager

/-! Process hygiene of `launch`. -/

theorem pollLoop_all_false (tryAt : Nat → Bool) (h : ∀ k, tryAt k = false) :
    ∀ b i : Nat, pollLoop tryAt i b = false := by
  intro b
  induction b with
  | zero => intro i; rfl
  | succ b ih =>
    intro i
    simp only [pollLoop, h i, Bool.false_eq_true, if_false]
    exact ih (i + 1)

/-- Claim C5: every failing `launch` leaves no spawned process running — in
particular, when no browser becomes reachable (initial attach fails and every
poll fails) on a machine with a browser executable and a working spawn, the
call fails with the launch-timeout `BrowserError` and the process it spawned
has been terminated before the error surfaces. -/
theorem launch_no_orphan (env : LaunchEnv) (headless useProfile : Bool) (m : MgrState)
    (hm : m.procRunning = false) :
    (∀ e, (launch env headless useProfile m).2 = .error e →
        (launch env headless useProfile m).1.procRunning = false) ∧
    (env.alreadyConnected = false → env.tryFirst = false →
      (∀ k, env.pollTry k = false) → env.popenOk = true →
      env.chromePath.isSome = true →
        (launch env headless useProfile m).2 = .error LaunchErr.connectTimeout ∧
        (launch env headless useProfile m).1.procRunning = false) := by
  constructor
  · intro e herr
    unfold launch at herr ⊢
    by_cases hac : env.alreadyConnected = true
    · simp [hac] at herr
    · simp only [hac, Bool.false_eq_true, if_false] at herr ⊢
      by_cases htf : env.tryFirst = true
      · simp [htf] at herr
      · simp only [htf, Bool.false_eq_true, if_false] at herr ⊢
        cases hcp : env.chromePath with
        | none => simp only [hcp] at herr ⊢; exact hm
        | some path =>
          simp only [hcp] at herr ⊢
          by_cases hpo : env.popenOk = true
          · simp only [hpo, if_pos] at herr ⊢
            by_cases hpl : pollLoop env.pollTry 0 env.pollBudget = true
            · simp [hpl] at herr
            · simp only [hpl, Bool.false_eq_true, if_false] at herr ⊢
          · simp only [hpo, Bool.false_eq_true, if_false] at herr ⊢
            exact hm
  · intro hac htf hpt hpo hcp
    obtain ⟨path, hpath⟩ := Option.isSome_iff_exists.mp hcp
    unfold launch
    simp only [hac, htf, hpath, hpo, Bool.false_eq_true, if_false, if_pos,
               pollLoop_all_false env.pollTry hpt]
    exact ⟨trivial, trivial⟩

/-- Witness for C5: in `exEnv` (unreachable browser, working spawn) a launch
from a fresh manager times out with the launch error and ends with no process
running. -/
theorem launch_no_orphan_witness :
    (launch exEnv true true exMgr).2 = .error LaunchErr.connectTimeout ∧
    (launch exEnv true true exMgr).1.procRunning = false := by
  have h := launch_no_orphan exEnv true true exMgr rfl
  exact h.2 rfl rfl (fun k => rfl) rfl rfl

end BrowserManager

namespace CDPClient

/-! Lifetime uniqueness of command ids. -/

theorem resolveFuture_idCounter (data : JVal) (i : Int) (s s1 : ClientState)
    (h : resolveFuture data i s = .ok s1) : s1.idCounter = s.idCounter := by
  simp only [resolveFuture] at h
  split at h
  · exact Except.noConfusion h
  · split at h
    · split at h
      · exact Except.noConfusion h
      · split at h
        · exact Except.noConfusion h
        · split at h
          · exact Except.noConfusion h
          · cases h; rfl
    · split at h
      · exact Except.noConfusion h
      · cases h; rfl

theorem handleIdBranch_idCounter (data : JVal) (s s1 : ClientState)
    (h : handleIdBranch data s = .ok s1) : s1.idCounter = s.idCounter := by
  simp only [handleIdBranch] at h
  split at h
  · exact Except.noConfusion h
  · split at h
    · split at h
      · split at h
        · exact resolveFuture_idCounter _ _ _ _ h
        · cases h; rfl
      · cases h; rfl
    · exact Except.noConfusion h

theorem handleEventBranch_idCounter (data : JVal) (s s1 : ClientState)
    (h : handleEventBranch data s = .ok s1) : s1.idCounter = s.idCounter := by
  simp only [handleEventBranch] at h
  split at h
  · exact Except.noConfusion h
  · split at h
    · exact Except.noConfusion h
    · split at h
      · split at h
        · split at h
          · cases h; rfl
          · cases h; rfl
        · cases h; rfl
      · exact Except.noConfusion h

theorem handle_message_idCounter (m : Msg) (s s1 : ClientState)
    (h : handle_message m s = .ok s1) : s1.idCounter = s.idCounter := by
  simp only [handle_message] at h
  split at h
  · cases h; rfl
  · split at h
    · exact Except.noConfusion h
    · rename_i data hasId hres
      split at h
      · exact Except.noConfusion h
      · rename_i smid hmid
        split at h
        · exact Except.noConfusion h
        · split at h
          · have h2 : smid.idCounter = s.idCounter := by
              split at hmid
              · exact handleIdBranch_idCounter _ _ _ hmid
              · cases hmid; rfl
            rw [handleEventBranch_idCounter _ _ _ h, h2]
          · cases h
            split at hmid
            · exact handleIdBranch_idCounter _ _ _ hmid
            · cases hmid; rfl

theorem connect_idCounter (s : ClientState) (u : String) (ok : Bool) :
    (connect s u ok).1.idCounter = s.idCounter := by
  unfold connect
  by_cases hc : clientConnected s = true <;> by_cases hok : ok = true <;>
    simp [hc, hok, close]

theorem stepOp_mono (s : ClientState) (op : COp) :
    s.idCounter ≤ (stepOp s op).1.idCounter := by
  cases op with
  | connectOp u ok =>
    show s.idCounter ≤ (connect s u ok).1.idCounter
    rw [connect_idCounter]
  | closeOp => exact le_refl _
  | sendOp method params =>
    simp only [stepOp, send_start]
    by_cases hc : clientConnected s = true
    · simp only [hc, if_pos]
      omega
    · simp only [hc, Bool.false_eq_true, if_false]
      exact le_refl _
  | recvOp m =>
    simp only [stepOp]
    cases hh : handle_message m s with
    | ok s1 => rw [handle_message_idCounter m s s1 hh]
    | error e => exact le_refl _
  | onOp e h => exact le_refl _
  | offOp e h =>
    show s.idCounter ≤ (offEvent s e h).idCounter
    unfold offEvent
    split
    · cases h with
      | none => exact le_refl _
      | some hh => exact le_refl _
    · exact le_refl _
  | timeoutOp i => exact le_refl _
  | connLostOp => exact le_refl _

theorem stepOp_alloc (s : ClientState) (op : COp) (s1 : ClientState) (i : Int)
    (h : stepOp s op = (s1, some i)) :
    i = s.idCounter + 1 ∧ s1.idCounter = i := by
  cases op with
  | connectOp u ok => simp [stepOp] at h
  | closeOp => simp [stepOp] at h
  | sendOp method params =>
    simp only [stepOp, send_start] at h
    by_cases hc : clientConnected s = true
    · simp only [hc, if_pos] at h
      cases h
      exact ⟨rfl, rfl⟩
    · simp [hc] at h
  | recvOp m =>
    simp only [stepOp] at h
    cases hh : handle_message m s with
    | ok s2 => rw [hh] at h; simp at h
    | error e => rw [hh] at h; simp at h
  | onOp e hn => simp [stepOp] at h
  | offOp e hn => simp [stepOp] at h
  | timeoutOp j => simp [stepOp] at h
  | connLostOp => simp [stepOp] at h

theorem allocIds_bound_chain (ops : List COp) : ∀ s : ClientState,
    (∀ i ∈ allocIds s ops, s.idCounter < i) ∧
      List.Chain' (· < ·) (allocIds s ops) := by
  induction ops with
  | nil =>
    intro s
    exact ⟨by intro i hi; simp [allocIds] at hi, List.chain'_nil⟩
  | cons op rest ih =>
    intro s
    rcases hstep : stepOp s op with ⟨s1, oi⟩
    have hmono : s.idCounter ≤ s1.idCounter := by
      have := stepOp_mono s op
      rw [hstep] at this
      exact this
    cases oi with
    | none =>
      have hrw : allocIds s (op :: rest) = allocIds s1 rest := by
        conv_lhs => rw [allocIds]
        rw [hstep]
      rw [hrw]
      exact ⟨fun i hi => lt_of_le_of_lt hmono ((ih s1).1 i hi), (ih s1).2⟩
    | some i =>
      have halloc := stepOp_alloc s op s1 i hstep
      have hrw : allocIds s (op :: rest) = i :: allocIds s1 rest := by
        conv_lhs => rw [allocIds]
        rw [hstep]
      rw [hrw]
      have hlt : s.idCounter < i := by omega
      have htail : ∀ j ∈ allocIds s1 rest, i < j := by
        intro j hj
        have := (ih s1).1 j hj
        omega
      constructor
      · intro j hj
        rcases List.mem_cons.mp hj with rfl | hj2
        · exact hlt
        · exact lt_trans hlt (htail j hj2)
      · apply List.chain'_cons'.mpr
        refine ⟨?_, (ih s1).2⟩
        intro y hy
        exact htail y (List.mem_of_mem_head? hy)

/-- Claim C10: the command-id counter is incremented only by `send` and is
never reset by `connect` or `close`; consequently, along any lifetime of a
client — arbitrary interleavings of connects, closes, sends, received
messages, subscription changes, timeouts and connection losses — the ids
`send` allocates are strictly increasing, hence never reused, even across a
disconnect and reconnect. -/
theorem id_counter_lifetime :
    (∀ s u ok, (connect s u ok).1.idCounter = s.idCounter) ∧
    (∀ s : ClientState, (close s).idCounter = s.idCounter) ∧
    (∀ (s : ClientState) (method : String) (params : JVal) (s1 : ClientState) (i : Int),
        send_start s method params = .ok (s1, i) →
        i = s.idCounter + 1 ∧ s1.idCounter = s.idCounter + 1) ∧
    (∀ (s : ClientState) (ops : List COp), List.Chain' (· < ·) (allocIds s ops)) := by
  refine ⟨connect_idCounter, fun s => rfl, ?_, fun s ops => (allocIds_bound_chain ops s).2⟩
  intro s method params s1 i h
  simp only [send_start] at h
  by_cases hc : clientConnected s = true
  · simp only [hc, if_pos] at h
    cases h
    exact ⟨rfl, rfl⟩
  · simp [hc] at h

/-- Witness for C10 on `exClient` (counter 2): a send, a reconnect, a send, a
close, a reconnect and a send allocate ids 3, 4, 5 — strictly increasing
across both reconnects — and `send_start` itself reports id 3 first. -/
theorem id_counter_lifetime_witness :
    (connect exClient "ws://localhost:9222/devtools" true).1.idCounter = 2 ∧
    (close exClient).idCounter = 2 ∧
    (3 = exClient.idCounter + 1 ∧ exAfterStart.idCounter = exClient.idCounter + 1) ∧
    allocIds exClient
        [COp.sendOp "Page.enable" JVal.null, COp.connectOp "w" true,
         COp.sendOp "DOM.enable" JVal.null, COp.closeOp, COp.connectOp "w" true,
         COp.sendOp "Runtime.enable" JVal.null] = [3, 4, 5] ∧
    List.Chain' (· < ·) (allocIds exClient
        [COp.sendOp "Page.enable" JVal.null, COp.connectOp "w" true,
         COp.sendOp "DOM.enable" JVal.null, COp.closeOp, COp.connectOp "w" true,
         COp.sendOp "Runtime.enable" JVal.null]) := by
  have h := id_counter_lifetime
  refine ⟨h.1 exClient "ws://localhost:9222/devtools" true, h.2.1 exClient,
    h.2.2.1 exClient "Foo.bar" (JVal.obj []) exAfterStart 3 rfl, rfl,
    h.2.2.2 exClient _⟩

end CDPClient

end Browsy
